import Mathlib

/-! Shallow embedding of the Trainer callbacks module (`axolotl/utils/callbacks.py`):
the `rewrite_logs` dictionary reshaping, the trainer-control callbacks, the RunPod
progress callback, the wandb config-artifact callback, and the distributed
benchmark-evaluation callback, together with theorems checking the specification's
claims about them.  Python dictionaries are modelled as association lists with
replace-or-append assignment, Python strings as `List Char`, floats as `ℚ`
(with `none : Option ℚ` standing for `NaN` where it matters), and fallible
Python operations (indexing errors, shape errors) as `Option`-valued functions. -/

namespace Callbacks

/-- Python dictionary assignment `d[k] = v` on an association list: replaces the
value at an existing key in place, otherwise appends the new binding at the end
(matching CPython's insertion-order semantics). -/
def dictSet {K V : Type} [DecidableEq K] : List (K × V) → K → V → List (K × V)
  | [], k, v => [(k, v)]
  | kv :: rest, k, v =>
      if kv.1 = k then (k, v) :: rest else kv :: dictSet rest k v

/-- Python dictionary read `d.get(k)` on an association list. -/
def dictLookup {K V : Type} [DecidableEq K] (k : K) : List (K × V) → Option V
  | [] => none
  | kv :: rest => if kv.1 = k then some kv.2 else dictLookup k rest

/-- The Python loop `for k, v in l: d[k] = v` starting from dictionary `init`. -/
def foldInserts {K V : Type} [DecidableEq K] (init : List (K × V)) (l : List (K × V)) :
    List (K × V) :=
  l.foldl (fun m kv => dictSet m kv.1 kv.2) init

/-- Monadic map over `Option`, modelling a Python loop that may raise at any element. -/
def optMapM {α β : Type} (f : α → Option β) : List α → Option (List β)
  | [] => some []
  | a :: as => (f a).bind fun b => (optMapM f as).map fun bs => b :: bs

/-! ### `rewrite_logs`

The Python function partitions a logs dictionary into `train` / `eval` / `test`
sub-dictionaries, stripping the `eval_` / `test_` key prefixes.  `k.take 5 = evalTag`
models `k.startswith("eval_")` and `k.drop 5` models `k[len("eval_"):]`
(both tags have five characters). -/

/-- Keys of the log dictionaries, modelled as character lists (Python `str`). -/
abbrev Key := List Char

/-- The five characters of the Python string literal `"eval_"`. -/
def evalTag : Key := "eval_".toList

/-- The five characters of the Python string literal `"test_"`. -/
def testTag : Key := "test_".toList

/-- Result of `rewrite_logs`: the dictionary `{'train': …, 'eval': …, 'test': …}`. -/
structure RewrittenLogs (V : Type) where
  train : List (Key × V)
  eval : List (Key × V)
  test : List (Key × V)
deriving DecidableEq

/-- The `for k, v in d.items()` loop body of `rewrite_logs`, with the three
bucket dictionaries as explicit accumulator state. -/
def rewriteLogsAux {V : Type} : List (Key × V) → RewrittenLogs V → RewrittenLogs V
  | [], acc => acc
  | (k, v) :: rest, acc =>
      if k.take 5 = evalTag then
        rewriteLogsAux rest { acc with eval := dictSet acc.eval (k.drop 5) v }
      else if k.take 5 = testTag then
        rewriteLogsAux rest { acc with test := dictSet acc.test (k.drop 5) v }
      else
        rewriteLogsAux rest { acc with train := dictSet acc.train k v }

/-- The Python function `rewrite_logs`. -/
def rewrite_logs {V : Type} (d : List (Key × V)) : RewrittenLogs V :=
  rewriteLogsAux d ⟨[], [], []⟩

/-- Does a key belong to the `eval` bucket (it starts with `"eval_"`). -/
def isEvalKey (k : Key) : Bool := decide (k.take 5 = evalTag)

/-- Does a key belong to the `test` bucket (it starts with `"test_"` and not `"eval_"`). -/
def isTestKey (k : Key) : Bool := !decide (k.take 5 = evalTag) && decide (k.take 5 = testTag)

/-- Specification-side description of the `eval` bucket: the `eval_`-prefixed
entries, with the prefix stripped from the key. -/
def evalPart {V : Type} (d : List (Key × V)) : List (Key × V) :=
  (d.filter fun kv => isEvalKey kv.1).map fun kv => (kv.1.drop 5, kv.2)

/-- Specification-side description of the `test` bucket. -/
def testPart {V : Type} (d : List (Key × V)) : List (Key × V) :=
  (d.filter fun kv => isTestKey kv.1).map fun kv => (kv.1.drop 5, kv.2)

/-- Specification-side description of the `train` bucket: all remaining entries,
keys unmodified. -/
def trainPart {V : Type} (d : List (Key × V)) : List (Key × V) :=
  d.filter fun kv => !isEvalKey kv.1 && !isTestKey kv.1

/-! ### Trainer data model -/

/-- The `IntervalStrategy` enum of the host training framework. -/
inductive IntervalStrategy where
  | no
  | steps
  | epoch
deriving DecidableEq

/-- The `TrainerControl` object: the five control flags the host trainer consults. -/
structure TrainerControl where
  should_training_stop : Bool
  should_epoch_stop : Bool
  should_save : Bool
  should_evaluate : Bool
  should_log : Bool
deriving DecidableEq

/-- The part of `TrainerState` the callbacks read. -/
structure TrainerState where
  global_step : Nat
deriving DecidableEq

/-! ### `EvalFirstStepCallback` -/

/-- The part of `TrainingArguments` that `EvalFirstStepCallback` reads.
`eval_steps` is a float in the host framework and is modelled as `ℚ`. -/
structure EvalStepArgs where
  evaluation_strategy : IntervalStrategy
  eval_steps : ℚ
deriving DecidableEq

/-- The method `EvalFirstStepCallback.on_step_end`. -/
def evalFirstStepOnStepEnd (args : EvalStepArgs) (state : TrainerState)
    (control : TrainerControl) : TrainerControl :=
  if args.evaluation_strategy = IntervalStrategy.steps ∧ args.eval_steps < 1 ∧
      state.global_step = 1 then
    { control with should_evaluate := true }
  else
    control

/-! ### `SaveBetterTransformerModelCallback` -/

/-- The part of `TrainingArguments` that `SaveBetterTransformerModelCallback` reads. -/
structure SaveArgs where
  save_strategy : IntervalStrategy
  save_steps : Nat
  output_dir : List Char
deriving DecidableEq

/-- The checkpoint folder `os.path.join(args.output_dir, f"checkpoint-{state.global_step}")`;
`PREFIX_CHECKPOINT_DIR` is the string `"checkpoint"`. -/
def checkpointFolder (args : SaveArgs) (state : TrainerState) : List Char :=
  args.output_dir ++ ('/' :: "checkpoint-".toList) ++ (Nat.repr state.global_step).toList

/-- The method `SaveBetterTransformerModelCallback.on_step_end`: returns the control object
and the list of checkpoint folders to which the unwrapped model was saved
(`BetterTransformer.reverse` followed by `save_pretrained`). -/
def saveBTOnStepEnd (args : SaveArgs) (state : TrainerState) (control : TrainerControl) :
    TrainerControl × List (List Char) :=
  let c1 :=
    if args.save_strategy = IntervalStrategy.steps ∧ 0 < args.save_steps ∧
        state.global_step % args.save_steps = 0 then
      { control with should_save := true }
    else control
  if c1.should_save then
    ({ c1 with should_save := false }, [checkpointFolder args state])
  else (c1, [])

/-! ### `RunPodCallback` -/

/-- A JSON value, modelling the object handed to `json.dumps` in `_send_update`. -/
inductive JsonVal where
  | num (q : ℚ)
  | str (s : List Char)
  | null
  | obj (fields : List (List Char × JsonVal))

/-- JSON encoding of one log bucket (a string-to-float dictionary). -/
def encodeDict (d : List (Key × ℚ)) : JsonVal :=
  JsonVal.obj (d.map fun kv => (kv.1, JsonVal.num kv.2))

/-- JSON encoding of the metrics dictionary `{"train": …, "eval": …, "test": …}`
stored by `RunPodCallback.on_log` from `rewrite_logs` output. -/
def encodeMetrics (m : RewrittenLogs ℚ) : JsonVal :=
  JsonVal.obj
    [("train".toList, encodeDict m.train),
     ("eval".toList, encodeDict m.eval),
     ("test".toList, encodeDict m.test)]

/-- The mutable state of `RunPodCallback` read and written by `on_step_end`. -/
structure RunPodState where
  current_tracked_steps : Nat
  total_tracked_steps : Nat
  training_start_time : ℚ
  total_eval_time : ℚ
  last_log_time : ℚ
  metrics : RewrittenLogs ℚ
  wandb_run_url : Option (List Char)

/-- The part of `TrainingArguments` that `RunPodCallback.on_step_end` reads. -/
structure LogArgs where
  logging_steps : Nat
deriving DecidableEq

/-- The JSON progress object built by `RunPodCallback.on_step_end` and serialized
by `_send_update` via `json.dumps(message_content)`. -/
def progressJson (step total : Nat) (elapsed remaining : ℚ) (metrics : RewrittenLogs ℚ)
    (url : Option (List Char)) : JsonVal :=
  JsonVal.obj
    [("step".toList, JsonVal.num step),
     ("total_steps".toList, JsonVal.num total),
     ("time_seconds".toList,
       JsonVal.obj [("elapsed".toList, JsonVal.num elapsed),
                    ("remaining".toList, JsonVal.num remaining)]),
     ("metrics".toList, encodeMetrics metrics),
     ("wandb".toList, match url with | none => JsonVal.null | some u => JsonVal.str u)]

/-- The method `RunPodCallback.on_step_end`: wall-clock time is passed in explicitly as `now`
(the value of `time.time()`); returns the updated callback state and the list of
JSON progress updates sent to RunPod during this call. -/
def runPodOnStepEnd (args : LogArgs) (state : TrainerState) (rp : RunPodState) (now : ℚ) :
    RunPodState × List JsonVal :=
  let rp1 := { rp with current_tracked_steps := rp.current_tracked_steps + 1 }
  let training_time_elapsed := now - rp1.training_start_time - rp1.total_eval_time
  if state.global_step % args.logging_steps = 0 then
    let time_per_step := training_time_elapsed / (rp1.current_tracked_steps : ℚ)
    let time_remaining :=
      time_per_step * ((rp1.total_tracked_steps : ℚ) - (rp1.current_tracked_steps : ℚ))
    ({ rp1 with last_log_time := now },
     [progressJson state.global_step rp1.total_tracked_steps training_time_elapsed
        time_remaining rp1.metrics rp1.wandb_run_url])
  else (rp1, [])

/-! ### `SaveAxolotlConfigtoWandBCallback` -/

/-- Python exception classes relevant to `SaveAxolotlConfigtoWandBCallback`:
the two caught classes, and any other exception. -/
inductive PyError where
  | fileNotFound
  | connectionError
  | otherError
deriving DecidableEq

/-- Observable wandb-side effects of `SaveAxolotlConfigtoWandBCallback.on_train_begin`. -/
inductive WandbEvent where
  | loggedArtifact
  | warned (e : PyError)
deriving DecidableEq

/-- The method `SaveAxolotlConfigtoWandBCallback.on_train_begin`.  Building and uploading the
config artifact is an external effect whose outcome is passed in as `upload`;
`Except.error e` means the wandb calls raised exception `e`.  The overall result is
`Except.error e` when the exception propagates out of the callback, and otherwise
the returned control object together with the list of logged events. -/
def saveConfigOnTrainBegin (isMain : Bool) (upload : Except PyError Unit)
    (control : TrainerControl) : Except PyError (TrainerControl × List WandbEvent) :=
  if isMain then
    match upload with
    | Except.ok _ => Except.ok (control, [WandbEvent.loggedArtifact])
    | Except.error e =>
        if e = PyError.fileNotFound ∨ e = PyError.connectionError then
          Except.ok (control, [WandbEvent.warned e])
        else Except.error e
  else Except.ok (control, [])

/-! ### Benchmark evaluation: tokenization (`tokenize_evals`) and filtering -/

/-- The constant `IGNORE_INDEX = -100` from the source module. -/
def IGNORE_INDEX : Int := -100

/-- One row of the benchmark dataset as consumed by `tokenize_evals`. -/
structure BenchExample where
  input : List Char
  output : List Char
  subject : List Char
deriving DecidableEq

/-- One tokenized benchmark row. -/
structure TokenizedEval where
  input_ids : List Int
  labels : List Int
  subject : List Char
deriving DecidableEq

/-- A call to the external tokenizer with `add_special_tokens=False`,
`max_length=2048, truncation=True`: truncation keeps the first 2048 tokens,
modelled with `List.take`. -/
def tokTrunc (tok : List Char → List Int) (s : List Char) : List Int :=
  (tok s).take 2048

/-- The function `tokenize_evals` from the source: the source text is `bos_token + input`, the
target text is `output + eos_token`; `input_ids` is the concatenation of their
tokenizations and `labels` masks every source position with `IGNORE_INDEX`. -/
def tokenize_evals (tok : List Char → List Int) (bos eos : List Char)
    (ex : BenchExample) : TokenizedEval :=
  let tokenized_source := tokTrunc tok (bos ++ ex.input)
  let tokenized_target := tokTrunc tok (ex.output ++ eos)
  { input_ids := tokenized_source ++ tokenized_target
    labels := List.replicate tokenized_source.length IGNORE_INDEX ++ tokenized_target
    subject := ex.subject }

/-- The `abcd_idx` list built in `bench_eval_callback_factory`: the first token id
of each of `"A"` … `"G"`; `none` models the `IndexError` raised when the tokenizer
returns no tokens for one of them. -/
def abcdIdxOf (tok : List Char → List Int) : Option (List Int) :=
  optMapM (fun s => (tok s).head?)
    ["A".toList, "B".toList, "C".toList, "D".toList, "E".toList, "F".toList, "G".toList]

/-- Python `labels[-2]`: the second-to-last element; `none` models the `IndexError`
raised when the list has fewer than two elements. -/
def secondToLast (l : List Int) : Option Int :=
  if 2 ≤ l.length then l.get? (l.length - 2) else none

/-- The filter predicate `lambda x: x["labels"][-2] in abcd_idx`, which may raise. -/
def keepEval (abcd : List Int) (x : TokenizedEval) : Option Bool :=
  (secondToLast x.labels).map fun t => abcd.contains t

/-- The call `bench_dataset.filter(lambda x: x["labels"][-2] in abcd_idx)`: `none` when the
predicate raises on some row, otherwise the retained rows in order. -/
def filterEvals (abcd : List Int) : List TokenizedEval → Option (List TokenizedEval)
  | [] => some []
  | x :: rest =>
      (keepEval abcd x).bind fun b =>
        (filterEvals abcd rest).map fun r => if b then x :: r else r

/-! ### Benchmark evaluation: the `on_evaluate` batch loop -/

/-- Python/torch sequence indexing with negative-index wraparound;
`none` models an `IndexError`. -/
def pyGet {α : Type} (l : List α) (i : Int) : Option α :=
  if i < 0 then
    if i + l.length < 0 then none else l.get? (i + l.length).toNat
  else l.get? i.toNat

/-- The maximum of a list of floats (`none` on an empty list). -/
def listMax : List ℚ → Option ℚ
  | [] => none
  | x :: xs =>
      match listMax xs with
      | none => some x
      | some m => some (max x m)

/-- The operation `torch.argmax` on a one-dimensional tensor: the index of the first maximal
entry (0 on an empty tensor, which torch would reject). -/
def argmaxIdx (l : List ℚ) : Nat :=
  match listMax l with
  | none => 0
  | some m => l.findIdx fun x => decide (x = m)

/-- The body of `for i, logit in enumerate(logits)` for one example: find the first
non-`IGNORE_INDEX` label position (`nonzero()[0][0]`), index the logits one
position before it (torch indexing, with negative-index wraparound when the
position is 0), gather the seven answer-option logits, and take
`torch.argmax(...).item()`.  `none` models the torch errors (an all-ignore label
row, out-of-range indices). -/
def examplePred (abcd : List Int) (lab : List Int) (logit : List (List ℚ)) : Option Int :=
  match lab.findIdx? (fun t => t != IGNORE_INDEX) with
  | none => none
  | some j =>
      match pyGet logit ((j : Int) - 1) with
      | none => none
      | some row =>
          match optMapM (fun a => pyGet row a) abcd with
          | none => none
          | some vals => some ((argmaxIdx vals : Nat) : Int)

/-- The prediction loop over `enumerate(logits)`, reading `batch["labels"][i]`
(which raises when `i` is out of range of the labels list). -/
def batchPreds (abcd : List Int) (labList : List (List Int)) :
    List (List (List ℚ)) → Nat → Option (List Int)
  | [], _ => some []
  | logit :: rest, i =>
      (labList.get? i).bind fun lab =>
        (examplePred abcd lab logit).bind fun p =>
          (batchPreds abcd labList rest (i + 1)).map fun ps => p :: ps

/-- The selection `labels[labels != IGNORE_INDEX]` on one row. -/
def nonIgnore (l : List Int) : List Int := l.filter fun t => t != IGNORE_INDEX

/-- The reshaping `t.view(-1, 2)[:, 0]` on a flattened tensor: the first element of each
consecutive pair; `none` models the shape error when the length is odd. -/
def viewPairsFirst : List Int → Option (List Int)
  | [] => some []
  | [_] => none
  | a :: _ :: rest => (viewPairsFirst rest).map fun l => a :: l

/-- The expression `abcd_idx.index(label) if label in abcd_idx else -1`. -/
def refIdxOf (abcd : List Int) (t : Int) : Int :=
  if abcd.contains t then (abcd.indexOf t : Int) else -1

/-- The reference extraction of one batch:
`labels[labels != IGNORE_INDEX].view(-1, 2)[:, 0]` on the flattened label tensor
returned by `prediction_step` (same values as `batch["labels"]`), each entry then
mapped through `refIdxOf`. -/
def batchRefs (abcd : List Int) (labList : List (List Int)) : Option (List Int) :=
  (viewPairsFirst (nonIgnore labList.flatten)).map fun firsts => firsts.map (refIdxOf abcd)

/-- One batch from the bench dataloader together with the outputs of
`trainer.prediction_step` on it: per-example labels, per-example per-position
per-token logits, and the scalar loss (`loss.item()`). -/
structure Batch where
  labels : List (List Int)
  logits : List (List (List ℚ))
  loss : ℚ
deriving DecidableEq

/-- The running accumulators of the batch loop: `preds`, `refs`, `loss_bench`. -/
structure StepAcc where
  preds : List Int
  refs : List Int
  loss : ℚ
deriving DecidableEq

/-- The `for batch in data_loader` loop of `BenchEvalCallback.on_evaluate`. -/
def runBatches (abcd : List Int) : List Batch → StepAcc → Option StepAcc
  | [], acc => some acc
  | b :: rest, acc =>
      (batchPreds abcd b.labels b.logits 0).bind fun ps =>
        (batchRefs abcd b.labels).bind fun rs =>
          runBatches abcd rest ⟨acc.preds ++ ps, acc.refs ++ rs, acc.loss + b.loss⟩

/-! ### Benchmark evaluation: grouping, merging, scoring -/

/-- The per-category accumulator `{"refs": [...], "preds": [...]}`. -/
structure CatData where
  refs : List Int
  preds : List Int
deriving DecidableEq

/-- The comprehension building one empty `{"refs": [], "preds": []}` bucket per
distinct subject name.  (The iteration order of a Python set is unspecified;
`List.dedup` picks a canonical order, and nothing downstream depends on it.) -/
def initCats (names : List (List Char)) : List (List Char × CatData) :=
  names.dedup.map fun s => (s, ⟨[], []⟩)

/-- One iteration of `for s, p, r in zip(bench_name, preds, refs)`: append `p` and
`r` to the bucket keyed `s` (which `initCats` guarantees exists, with unique keys). -/
def appendPR (cats : List (List Char × CatData)) (s : List Char) (p r : Int) :
    List (List Char × CatData) :=
  cats.map fun kv =>
    if kv.1 = s then (kv.1, ⟨kv.2.refs ++ [r], kv.2.preds ++ [p]⟩) else kv

/-- The `bench_names` dictionary built on each rank: this rank's predictions and
references grouped by subject name (`zip` truncates to the shortest list). -/
def localBenchNames (names : List (List Char)) (preds refs : List Int) :
    List (List Char × CatData) :=
  (names.zip (preds.zip refs)).foldl (fun cats x => appendPR cats x.1 x.2.1 x.2.2)
    (initCats names)

/-- One inner iteration of the combine loop on the main rank: create the category
if absent, then extend its `refs` and `preds` with the gathered rank's data. -/
def extendCat (c : List (List Char × CatData)) (name : List Char) (data : CatData) :
    List (List Char × CatData) :=
  let c1 := if (dictLookup name c).isSome then c else c ++ [(name, ⟨[], []⟩)]
  c1.map fun kv =>
    if kv.1 = name then (kv.1, ⟨kv.2.refs ++ data.refs, kv.2.preds ++ data.preds⟩)
    else kv

/-- The `combined_bench_names` merge over all gathered per-rank dictionaries. -/
def mergeCats (gathered : List (List (List Char × CatData))) :
    List (List Char × CatData) :=
  gathered.foldl (fun c bn => bn.foldl (fun c2 kv => extendCat c2 kv.1 kv.2) c) []

/-- The external `evaluate.load("accuracy")` metric (sklearn `accuracy_score`):
the fraction of positions where prediction equals reference; `none` models the
`NaN` float produced on empty inputs. -/
def accuracyScore (refs preds : List Int) : Option ℚ :=
  if refs.length = 0 then none
  else
    some (((((refs.zip preds).filter fun x => decide (x.1 = x.2)).length : Nat) : ℚ) /
      ((refs.length : Nat) : ℚ))

/-- The results key `f"{bench_split}_bench_loss"`, with `bench_split = "eval"`. -/
def lossKeyL : List Char := "eval_bench_loss".toList

/-- The results key `f"{bench_split}_bench_average_accuracy"`. -/
def avgKeyL : List Char := "eval_bench_average_accuracy".toList

/-- The results key `f"{bench_split}_bench_total_accuracy"`. -/
def totalKeyL : List Char := "eval_bench_total_accuracy".toList

/-- The twenty characters common to all keys `f"{bench_split}_bench_accuracy_{name}"`. -/
def accKeyBase : List Char := "eval_bench_accuracy_".toList

/-- The results key `f"{bench_split}_bench_accuracy_{bench_name}"`. -/
def accKeyFor (name : List Char) : List Char := accKeyBase ++ name

/-- The loop state of the scoring loop over `combined_bench_names`:
`bench_scores`, `bench_refs`, `bench_preds`, and the `results` dictionary. -/
structure ScoreState where
  scores : List ℚ
  refs : List Int
  preds : List Int
  results : List (List Char × Option ℚ)
deriving DecidableEq

/-- One iteration of the scoring loop: score the category, extend the concatenated
refs/preds, and record the score under `eval_bench_accuracy_{name}` — the score
itself when it is not `NaN` (`pd.isna`), and `0.0` otherwise (in which case `0.0`
is also what enters `bench_scores`). -/
def scoreStep (st : ScoreState) (kv : List Char × CatData) : ScoreState :=
  match accuracyScore kv.2.refs kv.2.preds with
  | some s =>
      ⟨st.scores ++ [s], st.refs ++ kv.2.refs, st.preds ++ kv.2.preds,
        dictSet st.results (accKeyFor kv.1) (some s)⟩
  | none =>
      ⟨st.scores ++ [(0 : ℚ)], st.refs ++ kv.2.refs, st.preds ++ kv.2.preds,
        dictSet st.results (accKeyFor kv.1) (some 0)⟩

/-- The call `np.mean` on a list of floats: `none` models the `NaN` on an empty list. -/
def npMean (l : List ℚ) : Option ℚ :=
  if l.length = 0 then none else some (l.sum / ((l.length : Nat) : ℚ))

/-- The main-rank construction of the `results` dictionary: the bench loss first,
then one accuracy entry per combined category, then the macro average
`np.mean(bench_scores)`, then the total (micro) accuracy over the concatenated
refs and preds.  Values are `Option ℚ`, `none` standing for a float `NaN`. -/
def computeResults (benchLoss : ℚ) (combined : List (List Char × CatData)) :
    List (List Char × Option ℚ) :=
  let st := combined.foldl scoreStep ⟨[], [], [], [(lossKeyL, some benchLoss)]⟩
  let r1 := dictSet st.results avgKeyL (npMean st.scores)
  dictSet r1 totalKeyL (accuracyScore st.refs st.preds)

/-! ### Benchmark evaluation: the distributed pipeline -/

/-- The per-rank input to `on_evaluate`: the rank's shard of batches (with their
`prediction_step` outputs) and `bench_dataset["name"]`, the per-row subject-name
column as seen by that rank. -/
structure RankInput where
  batches : List Batch
  names : List (List Char)
deriving DecidableEq

/-- The batch loop of one rank, started from empty accumulators. -/
def runRank (abcd : List Int) (r : RankInput) : Option StepAcc :=
  runBatches abcd r.batches ⟨[], [], 0⟩

/-- Modelled from the spec: the collective primitives `gather_scalar_from_all_ranks`,
`dist.gather_object` and `barrier` live in `axolotl.utils.distributed`, which is not
part of this module; per the spec they are correct collectives that hand the
coordinating process every rank's value ("results must be gathered onto a single
coordinating process").  Accordingly the main-rank computation receives the
per-rank loop results directly: it computes
`bench_loss = sum(loss_bench_ranks) / sum(len_data_loader_ranks)`, merges the
gathered per-rank category dictionaries, and builds the `results` dictionary.
`none` propagates a Python exception raised inside any rank's batch loop. -/
def onEvaluateMain (abcd : List Int) (ranks : List RankInput) :
    Option (List (List Char × Option ℚ)) :=
  (optMapM (runRank abcd) ranks).map fun accs =>
    let benchLoss :=
      (accs.map StepAcc.loss).sum / (((ranks.map fun r => r.batches.length).sum : Nat) : ℚ)
    let locals := (ranks.zip accs).map fun ra =>
      localBenchNames ra.1.names ra.2.preds ra.2.refs
    computeResults benchLoss (mergeCats locals)

/-- Modelled from the spec: `broadcast_dict` (also from `axolotl.utils.distributed`)
delivers the main rank's `results` dictionary to every rank ("broadcast back to all
workers so that every process observes consistent final metrics").  After the
broadcast, `on_evaluate` runs `metrics[key] = val` for every results entry on every
rank; this function returns each rank's updated metrics dictionary. -/
def onEvaluateAllRanks (abcd : List Int) (ranks : List RankInput)
    (metricsPerRank : List (List (List Char × Option ℚ))) :
    Option (List (List (List Char × Option ℚ))) :=
  (onEvaluateMain abcd ranks).map fun results =>
    metricsPerRank.map fun m => foldInserts m results

/-! ### Concrete fixtures for the benchmark-evaluation witnesses -/

/-- Seven concrete answer-option token ids. -/
def wAbcd : List Int := [10, 11, 12, 13, 14, 15, 16]

/-- A concrete logits row over a 17-token vocabulary: among the option tokens
(ids 10–16) the maximum sits at id 12, i.e. option index 2. -/
def wRow : List ℚ := [0, 0, 0, 0, 0, 0, 0, 0, 0, 0, 1, 2, 5, 0, 0, 0, 0]

/-- A concrete one-example batch: the first non-ignore label is at position 1
(value 12, option index 2), followed by an eos token id 2; loss 2. -/
def wBatch : Batch := ⟨[[-100, 12, 2]], [[wRow]], 2⟩

/-- A concrete single rank holding the one-batch shard and the dataset's
subject-name column. -/
def wRank : RankInput := ⟨[wBatch], [['m']]⟩

/-- The main-rank `results` dictionary computed on the concrete one-rank,
one-batch, one-example fixture. -/
def wResults : List (List Char × Option ℚ) :=
  [(lossKeyL, some 2), (accKeyFor ['m'], some 1), (avgKeyL, some 1),
   (totalKeyL, some 1)]

/-- A concrete merged dictionary with one scored category and one empty (`NaN`)
category. -/
def wCombined : List (List Char × CatData) :=
  [(['m'], ⟨[2], [2]⟩), (['n'], ⟨[], []⟩)]

/-! ## Theorems -/

/-! ### Association-list lemmas -/

theorem dictSet_of_not_mem {K V : Type} [DecidableEq K] (m : List (K × V)) (k : K) (v : V)
    (h : k ∉ m.map Prod.fst) : dictSet m k v = m ++ [(k, v)] := by
  induction m with
  | nil => rfl
  | cons kv rest ih =>
      simp only [List.map_cons, List.mem_cons] at h
      push_neg at h
      simp only [dictSet]
      rw [if_neg (fun hkk : kv.1 = k => h.1 hkk.symm), ih h.2]
      simp

theorem dictLookup_dictSet_self {K V : Type} [DecidableEq K] (m : List (K × V)) (k : K) (v : V) :
    dictLookup k (dictSet m k v) = some v := by
  induction m with
  | nil => simp [dictSet, dictLookup]
  | cons kv rest ih =>
      simp only [dictSet]
      by_cases hk : kv.1 = k
      · rw [if_pos hk]
        simp [dictLookup]
      · rw [if_neg hk]
        simp [dictLookup, hk, ih]

theorem dictLookup_dictSet_ne {K V : Type} [DecidableEq K] (m : List (K × V)) (k k' : K) (v : V)
    (h : k' ≠ k) : dictLookup k (dictSet m k' v) = dictLookup k m := by
  induction m with
  | nil => simp [dictSet, dictLookup, h]
  | cons kv rest ih =>
      simp only [dictSet]
      by_cases hk : kv.1 = k'
      · rw [if_pos hk]
        simp [dictLookup, h, hk]
      · rw [if_neg hk]
        simp only [dictLookup]
        by_cases hk2 : kv.1 = k
        · simp [hk2]
        · simp [hk2, ih]

theorem keys_dictSet {K V : Type} [DecidableEq K] (m : List (K × V)) (k : K) (v : V) :
    (dictSet m k v).map Prod.fst =
      if k ∈ m.map Prod.fst then m.map Prod.fst else m.map Prod.fst ++ [k] := by
  induction m with
  | nil => simp [dictSet]
  | cons kv rest ih =>
      simp only [dictSet]
      by_cases hk : kv.1 = k
      · rw [if_pos hk]
        simp [hk]
      · rw [if_neg hk]
        simp only [List.map_cons, ih]
        by_cases hmem : k ∈ rest.map Prod.fst
        · rw [if_pos hmem, if_pos (by simp [hmem])]
        · rw [if_neg hmem, if_neg ?_]
          · simp
          · simp only [List.mem_cons]
            rintro (hkk | hkk)
            · exact hk hkk.symm
            · exact hmem hkk

theorem nodup_keys_dictSet {K V : Type} [DecidableEq K] (m : List (K × V)) (k : K) (v : V)
    (h : (m.map Prod.fst).Nodup) : ((dictSet m k v).map Prod.fst).Nodup := by
  rw [keys_dictSet]
  by_cases hmem : k ∈ m.map Prod.fst
  · rw [if_pos hmem]
    exact h
  · rw [if_neg hmem]
    exact List.Nodup.append h (List.nodup_singleton k)
      (fun a ha hak => hmem (List.mem_singleton.mp hak ▸ ha))

theorem nodup_keys_foldInserts {K V : Type} [DecidableEq K] (init : List (K × V))
    (l : List (K × V)) (h : (init.map Prod.fst).Nodup) :
    ((foldInserts init l).map Prod.fst).Nodup := by
  induction l generalizing init with
  | nil => exact h
  | cons kv rest ih =>
      simp only [foldInserts, List.foldl_cons]
      exact ih (dictSet init kv.1 kv.2) (nodup_keys_dictSet init kv.1 kv.2 h)

theorem dictLookup_foldInserts_of_not_mem {K V : Type} [DecidableEq K] (init : List (K × V))
    (l : List (K × V)) (k : K) (h : k ∉ l.map Prod.fst) :
    dictLookup k (foldInserts init l) = dictLookup k init := by
  induction l generalizing init with
  | nil => rfl
  | cons kv rest ih =>
      simp only [List.map_cons, List.mem_cons] at h
      push_neg at h
      simp only [foldInserts, List.foldl_cons]
      rw [show (rest.foldl (fun m kv => dictSet m kv.1 kv.2) (dictSet init kv.1 kv.2)) =
        foldInserts (dictSet init kv.1 kv.2) rest from rfl, ih _ h.2]
      exact dictLookup_dictSet_ne init k kv.1 kv.2 (fun hh => h.1 hh.symm)

theorem dictLookup_foldInserts_of_mem {K V : Type} [DecidableEq K] (init : List (K × V))
    (l : List (K × V)) (k : K) (v : V) (hnd : (l.map Prod.fst).Nodup) (hmem : (k, v) ∈ l) :
    dictLookup k (foldInserts init l) = some v := by
  induction l generalizing init with
  | nil => cases hmem
  | cons kv rest ih =>
      simp only [List.map_cons, List.nodup_cons] at hnd
      simp only [foldInserts, List.foldl_cons]
      rcases List.mem_cons.mp hmem with heq | htl
      · subst heq
        rw [show (rest.foldl (fun m kv => dictSet m kv.1 kv.2) (dictSet init k v)) =
          foldInserts (dictSet init k v) rest from rfl]
        rw [dictLookup_foldInserts_of_not_mem _ _ _ hnd.1]
        exact dictLookup_dictSet_self init k v
      · exact ih (dictSet init kv.1 kv.2) hnd.2 htl

theorem take_eq_of_take_eq_tag {k : Key} {t : Key} (h : k.take 5 = t) :
    k = t ++ k.drop 5 := by
  conv_lhs => rw [← List.take_append_drop 5 k]
  rw [h]

theorem rewriteLogsAux_spec {V : Type} (d : List (Key × V)) (t e s : List (Key × V))
    (hnd : (d.map Prod.fst).Nodup)
    (he : ∀ kv ∈ d, kv.1.take 5 = evalTag → kv.1.drop 5 ∉ e.map Prod.fst)
    (hs : ∀ kv ∈ d, ¬kv.1.take 5 = evalTag → kv.1.take 5 = testTag →
      kv.1.drop 5 ∉ s.map Prod.fst)
    (ht : ∀ kv ∈ d, ¬kv.1.take 5 = evalTag → ¬kv.1.take 5 = testTag →
      kv.1 ∉ t.map Prod.fst) :
    rewriteLogsAux d ⟨t, e, s⟩ =
      ⟨t ++ trainPart d, e ++ evalPart d, s ++ testPart d⟩ := by
  induction d generalizing t e s with
  | nil => simp [rewriteLogsAux, trainPart, evalPart, testPart]
  | cons kv rest ih =>
      obtain ⟨k, v⟩ := kv
      simp only [List.map_cons, List.nodup_cons] at hnd
      by_cases h1 : k.take 5 = evalTag
      · have hE : isEvalKey k = true := by simp [isEvalKey, h1]
        have hT : isTestKey k = false := by simp [isTestKey, h1]
        have hknotin : k.drop 5 ∉ e.map Prod.fst :=
          he (k, v) (List.mem_cons_self _ _) h1
        simp only [rewriteLogsAux, if_pos h1]
        rw [dictSet_of_not_mem e (k.drop 5) v hknotin]
        rw [ih t (e ++ [(k.drop 5, v)]) s hnd.2 ?_ ?_ ?_]
        · have htr : trainPart ((k, v) :: rest) = trainPart rest := by
            simp [trainPart, List.filter_cons, hE, hT]
          have hev : evalPart ((k, v) :: rest) = (k.drop 5, v) :: evalPart rest := by
            simp [evalPart, List.filter_cons, hE]
          have hte : testPart ((k, v) :: rest) = testPart rest := by
            simp [testPart, List.filter_cons, hT]
          simp [htr, hev, hte]
        · intro kv2 hkv2 h2
          have hne : kv2.1 ≠ k := fun hkk =>
            hnd.1 (hkk ▸ List.mem_map_of_mem Prod.fst hkv2)
          have base := he kv2 (List.mem_cons_of_mem _ hkv2) h2
          simp only [List.map_append, List.mem_append, List.map_cons, List.map_nil,
            List.mem_singleton]
          rintro (hin | hdrop)
          · exact base hin
          · apply hne
            have hk2 : kv2.1 = evalTag ++ kv2.1.drop 5 := take_eq_of_take_eq_tag h2
            have hk1 : k = evalTag ++ k.drop 5 := take_eq_of_take_eq_tag h1
            rw [hk2, hk1, hdrop]
        · intro kv2 hkv2 h2 h3
          exact hs kv2 (List.mem_cons_of_mem _ hkv2) h2 h3
        · intro kv2 hkv2 h2 h3
          exact ht kv2 (List.mem_cons_of_mem _ hkv2) h2 h3
      · by_cases h2 : k.take 5 = testTag
        · have hE : isEvalKey k = false := by simp [isEvalKey, h1]
          have hT : isTestKey k = true := by
            have hne : ¬testTag = evalTag := by decide
            simp [isTestKey, h1, h2, hne]
          have hknotin : k.drop 5 ∉ s.map Prod.fst :=
            hs (k, v) (List.mem_cons_self _ _) h1 h2
          simp only [rewriteLogsAux, if_neg h1, if_pos h2]
          rw [dictSet_of_not_mem s (k.drop 5) v hknotin]
          rw [ih t e (s ++ [(k.drop 5, v)]) hnd.2 ?_ ?_ ?_]
          · have htr : trainPart ((k, v) :: rest) = trainPart rest := by
              simp [trainPart, List.filter_cons, hE, hT]
            have hev : evalPart ((k, v) :: rest) = evalPart rest := by
              simp [evalPart, List.filter_cons, hE]
            have hte : testPart ((k, v) :: rest) = (k.drop 5, v) :: testPart rest := by
              simp [testPart, List.filter_cons, hT]
            simp [htr, hev, hte]
          · intro kv2 hkv2 hkv2e
            exact he kv2 (List.mem_cons_of_mem _ hkv2) hkv2e
          · intro kv2 hkv2 hkv2e hkv2t
            have hne : kv2.1 ≠ k := fun hkk =>
              hnd.1 (hkk ▸ List.mem_map_of_mem Prod.fst hkv2)
            have base := hs kv2 (List.mem_cons_of_mem _ hkv2) hkv2e hkv2t
            simp only [List.map_append, List.mem_append, List.map_cons, List.map_nil,
              List.mem_singleton]
            rintro (hin | hdrop)
            · exact base hin
            · apply hne
              have hk2 : kv2.1 = testTag ++ kv2.1.drop 5 := take_eq_of_take_eq_tag hkv2t
              have hk1 : k = testTag ++ k.drop 5 := take_eq_of_take_eq_tag h2
              rw [hk2, hk1, hdrop]
          · intro kv2 hkv2 hkv2e hkv2t
            exact ht kv2 (List.mem_cons_of_mem _ hkv2) hkv2e hkv2t
        · have hE : isEvalKey k = false := by simp [isEvalKey, h1]
          have hT : isTestKey k = false := by simp [isTestKey, h2]
          have hknotin : k ∉ t.map Prod.fst :=
            ht (k, v) (List.mem_cons_self _ _) h1 h2
          simp only [rewriteLogsAux, if_neg h1, if_neg h2]
          rw [dictSet_of_not_mem t k v hknotin]
          rw [ih (t ++ [(k, v)]) e s hnd.2 ?_ ?_ ?_]
          · have htr : trainPart ((k, v) :: rest) = (k, v) :: trainPart rest := by
              simp [trainPart, List.filter_cons, hE, hT]
            have hev : evalPart ((k, v) :: rest) = evalPart rest := by
              simp [evalPart, List.filter_cons, hE]
            have hte : testPart ((k, v) :: rest) = testPart rest := by
              simp [testPart, List.filter_cons, hT]
            simp [htr, hev, hte]
          · intro kv2 hkv2 hkv2e
            exact he kv2 (List.mem_cons_of_mem _ hkv2) hkv2e
          · intro kv2 hkv2 hkv2e hkv2t
            exact hs kv2 (List.mem_cons_of_mem _ hkv2) hkv2e hkv2t
          · intro kv2 hkv2 hkv2e hkv2t
            have hne : kv2.1 ≠ k := fun hkk =>
              hnd.1 (hkk ▸ List.mem_map_of_mem Prod.fst hkv2)
            have base := ht kv2 (List.mem_cons_of_mem _ hkv2) hkv2e hkv2t
            simp only [List.map_append, List.mem_append, List.map_cons, List.map_nil,
              List.mem_singleton]
            rintro (hin | hk)
            · exact base hin
            · exact hne hk

theorem parts_length {V : Type} (d : List (Key × V)) :
    (trainPart d).length + (evalPart d).length + (testPart d).length = d.length := by
  induction d with
  | nil => rfl
  | cons kv rest ih =>
      by_cases h1 : kv.1.take 5 = evalTag
      · have hE : isEvalKey kv.1 = true := by simp [isEvalKey, h1]
        have hT : isTestKey kv.1 = false := by simp [isTestKey, h1]
        simp only [trainPart, evalPart, testPart] at ih ⊢
        simp [List.filter_cons, hE, hT, List.length_map] at ih ⊢
        omega
      · by_cases h2 : kv.1.take 5 = testTag
        · have hE : isEvalKey kv.1 = false := by simp [isEvalKey, h1]
          have hT : isTestKey kv.1 = true := by
            have hne : ¬testTag = evalTag := by decide
            simp [isTestKey, h1, h2, hne]
          simp only [trainPart, evalPart, testPart] at ih ⊢
          simp [List.filter_cons, hE, hT, List.length_map] at ih ⊢
          omega
        · have hE : isEvalKey kv.1 = false := by simp [isEvalKey, h1]
          have hT : isTestKey kv.1 = false := by simp [isTestKey, h2]
          simp only [trainPart, evalPart, testPart] at ih ⊢
          simp [List.filter_cons, hE, hT, List.length_map] at ih ⊢
          omega

/-- C10: `rewrite_logs` partitions the input dictionary into exactly three buckets:
keys starting with `eval_` land in `eval` with the prefix stripped, keys starting
with `test_` (and not `eval_`) land in `test` with the prefix stripped, and every
other entry lands unmodified in `train`; values are unchanged and the bucket sizes
sum to the input size.  The hypothesis states that the input keys are distinct,
as they are for any Python dictionary. -/
theorem claim_C10_rewrite_logs_partition {V : Type} (d : List (Key × V))
    (hnd : (d.map Prod.fst).Nodup) :
    rewrite_logs d = ⟨trainPart d, evalPart d, testPart d⟩ ∧
    (trainPart d).length + (evalPart d).length + (testPart d).length = d.length := by
  constructor
  · have h := rewriteLogsAux_spec d [] [] [] hnd
      (by intro kv _ _; simp) (by intro kv _ _ _; simp) (by intro kv _ _ _; simp)
    simpa [rewrite_logs] using h
  · exact parts_length d

/-- Witness for C10 on a concrete three-entry logs dictionary containing one key
of each kind. -/
theorem claim_C10_rewrite_logs_partition_witness :
    rewrite_logs [("eval_loss".toList, (1 : ℚ)), ("test_acc".toList, 2), ("lr".toList, 3)] =
      ⟨trainPart [("eval_loss".toList, (1 : ℚ)), ("test_acc".toList, 2), ("lr".toList, 3)],
       evalPart [("eval_loss".toList, (1 : ℚ)), ("test_acc".toList, 2), ("lr".toList, 3)],
       testPart [("eval_loss".toList, (1 : ℚ)), ("test_acc".toList, 2), ("lr".toList, 3)]⟩ ∧
    (trainPart [("eval_loss".toList, (1 : ℚ)), ("test_acc".toList, 2),
        ("lr".toList, 3)]).length +
      (evalPart [("eval_loss".toList, (1 : ℚ)), ("test_acc".toList, 2),
        ("lr".toList, 3)]).length +
      (testPart [("eval_loss".toList, (1 : ℚ)), ("test_acc".toList, 2),
        ("lr".toList, 3)]).length =
      [("eval_loss".toList, (1 : ℚ)), ("test_acc".toList, 2), ("lr".toList, 3)].length :=
  claim_C10_rewrite_logs_partition
    [("eval_loss".toList, (1 : ℚ)), ("test_acc".toList, 2), ("lr".toList, 3)] (by decide)

/-! ### Claims C6, C9, C7, C8 -/

/-- C6: `EvalFirstStepCallback.on_step_end` sets `control.should_evaluate` to `True`
if and only if the evaluation strategy is `STEPS`, `args.eval_steps` is strictly less
than `1.0`, and `state.global_step` equals `1`; in every other case it returns the
control object with all fields unchanged.  (The first conjunct gives the flag's final
value in both cases; the remaining conjuncts state that no other field ever changes,
so when the condition fails the whole object is unchanged.) -/
theorem claim_C6_eval_first_step (args : EvalStepArgs) (state : TrainerState)
    (control : TrainerControl) :
    (evalFirstStepOnStepEnd args state control).should_evaluate =
      (decide (args.evaluation_strategy = IntervalStrategy.steps ∧ args.eval_steps < 1 ∧
        state.global_step = 1) || control.should_evaluate) ∧
    (evalFirstStepOnStepEnd args state control).should_training_stop =
      control.should_training_stop ∧
    (evalFirstStepOnStepEnd args state control).should_epoch_stop =
      control.should_epoch_stop ∧
    (evalFirstStepOnStepEnd args state control).should_save = control.should_save ∧
    (evalFirstStepOnStepEnd args state control).should_log = control.should_log := by
  by_cases h : args.evaluation_strategy = IntervalStrategy.steps ∧ args.eval_steps < 1 ∧
      state.global_step = 1
  · simp [evalFirstStepOnStepEnd, h]
  · simp [evalFirstStepOnStepEnd, h]

/-- C9: `SaveBetterTransformerModelCallback.on_step_end` always returns with
`control.should_save = False`, and it performs the unwrap-and-save (into the
checkpoint folder for the current step) exactly when a save is due: either the
save strategy is `STEPS` with positive `save_steps` dividing `global_step`, or
`should_save` was already set on entry. -/
theorem claim_C9_save_bt_clears_flag (args : SaveArgs) (state : TrainerState)
    (control : TrainerControl) :
    (saveBTOnStepEnd args state control).1.should_save = false ∧
    (saveBTOnStepEnd args state control).2 =
      (if (args.save_strategy = IntervalStrategy.steps ∧ 0 < args.save_steps ∧
            state.global_step % args.save_steps = 0) ∨ control.should_save = true then
        [checkpointFolder args state]
      else []) := by
  by_cases h : args.save_strategy = IntervalStrategy.steps ∧ 0 < args.save_steps ∧
      state.global_step % args.save_steps = 0
  · simp [saveBTOnStepEnd, h]
  · by_cases hs : control.should_save = true
    · simp [saveBTOnStepEnd, h, hs]
    · simp only [Bool.not_eq_true] at hs
      simp [saveBTOnStepEnd, h, hs]

/-- C7: `RunPodCallback.on_step_end` sends a progress update exactly when
`state.global_step` is a multiple of `args.logging_steps` (the hypothesis
`0 < logging_steps` reflects that Python's `%` would raise on zero); the update is
the JSON object with the current step, the total tracked steps, elapsed time
`now - training_start_time - total_eval_time`, remaining time
`(elapsed / steps tracked so far) * (total steps - steps tracked so far)`, the last
rewritten metrics, and the wandb run URL. -/
theorem claim_C7_runpod_progress (args : LogArgs) (state : TrainerState)
    (rp : RunPodState) (now : ℚ) (h : 0 < args.logging_steps) :
    (runPodOnStepEnd args state rp now).2 =
      (if state.global_step % args.logging_steps = 0 then
        [progressJson state.global_step rp.total_tracked_steps
          (now - rp.training_start_time - rp.total_eval_time)
          ((now - rp.training_start_time - rp.total_eval_time) /
              ((rp.current_tracked_steps + 1 : Nat) : ℚ) *
            ((rp.total_tracked_steps : ℚ) - ((rp.current_tracked_steps + 1 : Nat) : ℚ)))
          rp.metrics rp.wandb_run_url]
      else []) := by
  by_cases hm : state.global_step % args.logging_steps = 0
  · simp [runPodOnStepEnd, hm]
  · simp [runPodOnStepEnd, hm]

/-- Witness for C7 at a concrete input: step 4, logging every 2 steps, one update. -/
theorem claim_C7_runpod_progress_witness :
    (runPodOnStepEnd ⟨2⟩ ⟨4⟩ ⟨3, 10, 5, 1, 5, ⟨[], [], []⟩, none⟩ 17).2 =
      (if (4 : Nat) % 2 = 0 then
        [progressJson 4 10 ((17 : ℚ) - 5 - 1)
          (((17 : ℚ) - 5 - 1) / ((3 + 1 : Nat) : ℚ) * ((10 : ℚ) - ((3 + 1 : Nat) : ℚ)))
          ⟨[], [], []⟩ none]
      else []) :=
  claim_C7_runpod_progress ⟨2⟩ ⟨4⟩ ⟨3, 10, 5, 1, 5, ⟨[], [], []⟩, none⟩ 17 (by decide)

/-- C8: `SaveAxolotlConfigtoWandBCallback.on_train_begin` uploads the config
artifact only on the main process, catches `FileNotFoundError` and
`ConnectionError` (logging a warning instead of propagating), and always returns
the control object unchanged whenever it returns at all. -/
theorem claim_C8_wandb_config_errors (isMain : Bool) (upload : Except PyError Unit)
    (control : TrainerControl) :
    (isMain = false →
      saveConfigOnTrainBegin isMain upload control = Except.ok (control, [])) ∧
    (∀ e : PyError, upload = Except.error e →
      (e = PyError.fileNotFound ∨ e = PyError.connectionError) →
      saveConfigOnTrainBegin isMain upload control =
        Except.ok (control, if isMain then [WandbEvent.warned e] else [])) ∧
    (∀ c2 evs, saveConfigOnTrainBegin isMain upload control = Except.ok (c2, evs) →
      c2 = control) := by
  refine ⟨?_, ?_, ?_⟩
  · intro h
    simp [saveConfigOnTrainBegin, h]
  · intro e he hcaught
    subst he
    cases isMain with
    | false => simp [saveConfigOnTrainBegin]
    | true => simp [saveConfigOnTrainBegin, hcaught]
  · intro c2 evs h
    cases isMain with
    | false =>
        simp only [saveConfigOnTrainBegin, Bool.false_eq_true, if_false] at h
        cases h
        rfl
    | true =>
        simp only [saveConfigOnTrainBegin, if_true] at h
        cases upload with
        | ok u => cases h; rfl
        | error e =>
            have h2 : (if e = PyError.fileNotFound ∨ e = PyError.connectionError then
                  (Except.ok (control, [WandbEvent.warned e]) :
                    Except PyError (TrainerControl × List WandbEvent))
                else Except.error e) = Except.ok (c2, evs) := h
            by_cases hcaught : e = PyError.fileNotFound ∨ e = PyError.connectionError
            · rw [if_pos hcaught] at h2
              cases h2
              rfl
            · rw [if_neg hcaught] at h2
              cases h2

/-- Witness for C8: a `FileNotFoundError` on the main process is caught, a warning
is logged, and the control object comes back unchanged. -/
theorem claim_C8_wandb_config_errors_witness :
    saveConfigOnTrainBegin true (Except.error PyError.fileNotFound)
        ⟨false, false, false, false, false⟩ =
      Except.ok (⟨false, false, false, false, false⟩,
        if true then [WandbEvent.warned PyError.fileNotFound] else []) :=
  (claim_C8_wandb_config_errors true (Except.error PyError.fileNotFound)
      ⟨false, false, false, false, false⟩).2.1
    PyError.fileNotFound rfl (Or.inl rfl)

/-! ### `optMapM` lemmas -/

theorem optMapM_length {α β : Type} (f : α → Option β) (l : List α) (out : List β)
    (h : optMapM f l = some out) : out.length = l.length := by
  induction l generalizing out with
  | nil =>
      simp only [optMapM, Option.some.injEq] at h
      simp [← h]
  | cons a as ih =>
      simp only [optMapM] at h
      cases hfa : f a with
      | none => rw [hfa] at h; cases h
      | some b =>
          rw [hfa] at h
          cases hrec : optMapM f as with
          | none => rw [hrec] at h; cases h
          | some bs =>
              rw [hrec] at h
              have h2 : some (b :: bs) = some out := h
              cases h2
              simp [ih bs hrec]

theorem optMapM_get {α β : Type} (f : α → Option β) (l : List α) (out : List β)
    (h : optMapM f l = some out) :
    ∀ i (hi : i < l.length) (ho : i < out.length),
      f (l.get ⟨i, hi⟩) = some (out.get ⟨i, ho⟩) := by
  induction l generalizing out with
  | nil => intro i hi; cases hi
  | cons a as ih =>
      simp only [optMapM] at h
      cases hfa : f a with
      | none => rw [hfa] at h; cases h
      | some b =>
          rw [hfa] at h
          cases hrec : optMapM f as with
          | none => rw [hrec] at h; cases h
          | some bs =>
              rw [hrec] at h
              have h2 : some (b :: bs) = some out := h
              cases h2
              intro i hi ho
              cases i with
              | zero => simpa using hfa
              | succ j =>
                  simp only [List.get_cons_succ]
                  exact ih bs hrec j (by simpa using hi) (by simpa using ho)

/-- C5: `tokenize_evals` produces `input_ids` equal to the tokenized source
(bos plus input, truncated to 2048 tokens) concatenated with the tokenized target
(output plus eos, truncated to 2048 tokens), and `labels` equal to `IGNORE_INDEX`
repeated for the full source length followed by the target ids; the `abcd_idx`
list has exactly seven entries when its construction succeeds; and, on rows with
at least two label tokens (Python would raise otherwise), the subsequent filter
retains exactly the rows whose second-to-last label token is one of those ids. -/
theorem claim_C5_tokenize_evals (tok : List Char → List Int) (bos eos : List Char)
    (ex : BenchExample) (abcd : List Int) (xs : List TokenizedEval)
    (hlen : ∀ x ∈ xs, 2 ≤ x.labels.length) :
    (tokenize_evals tok bos eos ex).input_ids =
      (tok (bos ++ ex.input)).take 2048 ++ (tok (ex.output ++ eos)).take 2048 ∧
    (tokenize_evals tok bos eos ex).labels =
      List.replicate ((tok (bos ++ ex.input)).take 2048).length IGNORE_INDEX ++
        (tok (ex.output ++ eos)).take 2048 ∧
    (tokenize_evals tok bos eos ex).subject = ex.subject ∧
    (∀ l, abcdIdxOf tok = some l → l.length = 7) ∧
    filterEvals abcd xs =
      some (xs.filter fun x =>
        ((secondToLast x.labels).map fun t => abcd.contains t).getD false) := by
  refine ⟨rfl, rfl, rfl, ?_, ?_⟩
  · intro l hl
    exact optMapM_length _ _ _ hl
  · induction xs with
    | nil => rfl
    | cons x rest ih =>
        have h2 : 2 ≤ x.labels.length := hlen x (List.mem_cons_self _ _)
        have hlt : x.labels.length - 2 < x.labels.length := by omega
        have hst : secondToLast x.labels = some (x.labels.get ⟨x.labels.length - 2, hlt⟩) := by
          simp only [secondToLast, if_pos h2]
          exact List.get?_eq_get hlt
        have ihr := ih (fun y hy => hlen y (List.mem_cons_of_mem _ hy))
        simp only [filterEvals, keepEval, hst, Option.map_some, Option.bind_some, ihr,
          Option.map_some, List.filter_cons, Option.getD_some]
        by_cases hc : abcd.contains (x.labels.get ⟨x.labels.length - 2, hlt⟩)
        · simp [hc]
        · simp only [Bool.not_eq_true] at hc
          simp [hc]

/-- Witness for C5 at a concrete character-code tokenizer and a one-row dataset
whose second-to-last label token is the id of `"A"`. -/
theorem claim_C5_tokenize_evals_witness :
    (tokenize_evals (fun s => s.map fun c => (c.toNat : Int)) "b".toList "e".toList
        ⟨"i".toList, "o".toList, "s".toList⟩).input_ids =
      ((fun (s : List Char) => s.map fun c => (c.toNat : Int)) ("b".toList ++ "i".toList)).take
          2048 ++
        ((fun (s : List Char) => s.map fun c => (c.toNat : Int))
            ("o".toList ++ "e".toList)).take 2048 ∧
    (tokenize_evals (fun s => s.map fun c => (c.toNat : Int)) "b".toList "e".toList
        ⟨"i".toList, "o".toList, "s".toList⟩).labels =
      List.replicate
          (((fun (s : List Char) => s.map fun c => (c.toNat : Int))
              ("b".toList ++ "i".toList)).take 2048).length IGNORE_INDEX ++
        ((fun (s : List Char) => s.map fun c => (c.toNat : Int))
            ("o".toList ++ "e".toList)).take 2048 ∧
    (tokenize_evals (fun s => s.map fun c => (c.toNat : Int)) "b".toList "e".toList
        ⟨"i".toList, "o".toList, "s".toList⟩).subject = "s".toList ∧
    (∀ l, abcdIdxOf (fun s => s.map fun c => (c.toNat : Int)) = some l → l.length = 7) ∧
    filterEvals [65, 66, 67, 68, 69, 70, 71] [⟨[1], [65, 66], "s".toList⟩] =
      some ([⟨[1], [65, 66], "s".toList⟩].filter fun x =>
        ((secondToLast x.labels).map fun t =>
          List.contains [65, 66, 67, 68, 69, 70, 71] t).getD false) :=
  claim_C5_tokenize_evals (fun s => s.map fun c => (c.toNat : Int)) "b".toList "e".toList
    ⟨"i".toList, "o".toList, "s".toList⟩ [65, 66, 67, 68, 69, 70, 71]
    [⟨[1], [65, 66], "s".toList⟩] (by decide)

/-! ### Lemmas about the batch loop -/

theorem nonIgnore_flatten (L : List (List Int)) :
    nonIgnore L.flatten = (L.map nonIgnore).flatten := by
  induction L with
  | nil => rfl
  | cons l rest ih =>
      simp only [List.flatten_cons, List.map_cons, nonIgnore, List.filter_append]
      rw [show (List.filter (fun t => t != IGNORE_INDEX) rest.flatten) =
        nonIgnore rest.flatten from rfl, ih]

theorem viewPairsFirst_flatten (M : List (List Int)) (h : ∀ m ∈ M, m.length = 2) :
    viewPairsFirst M.flatten = some (M.map fun m => m.headD 0) := by
  induction M with
  | nil => rfl
  | cons m rest ih =>
      have hm := h m (List.mem_cons_self _ _)
      rcases m with _ | ⟨a, _ | ⟨b, _ | ⟨c, tl⟩⟩⟩
      · simp at hm
      · simp at hm
      · have ihr := ih fun x hx => h x (List.mem_cons_of_mem _ hx)
        show Option.map (fun l => a :: l) (viewPairsFirst rest.flatten) =
          some (List.map (fun m => m.headD 0) ([a, b] :: rest))
        rw [ihr]
        rfl
      · simp at hm

theorem drop_eq_get_cons : ∀ {α : Type} (l : List α) (i : Nat) (h : i < l.length),
    l.drop i = l.get ⟨i, h⟩ :: l.drop (i + 1) := by
  intro α l
  induction l with
  | nil => intro i h; cases h
  | cons a as ih =>
      intro i h
      cases i with
      | zero => simp
      | succ j =>
          have hj : j < as.length := by simpa using h
          have h1 : (a :: as).drop (j + 1) = as.drop j := List.drop_succ_cons
          have h2 : (a :: as).drop (j + 1 + 1) = as.drop (j + 1) := List.drop_succ_cons
          rw [h1, h2, List.get_cons_succ, ih j hj]

theorem get_zip : ∀ {α β : Type} (l1 : List α) (l2 : List β) (i : Nat)
    (h : i < (l1.zip l2).length) (h1 : i < l1.length) (h2 : i < l2.length),
    (l1.zip l2).get ⟨i, h⟩ = (l1.get ⟨i, h1⟩, l2.get ⟨i, h2⟩) := by
  intro α β l1
  induction l1 with
  | nil => intro l2 i h h1; cases h1
  | cons a as ih =>
      intro l2 i h h1 h2
      cases l2 with
      | nil => cases h2
      | cons b bs =>
          cases i with
          | zero => rfl
          | succ j =>
              show ((a, b) :: as.zip bs).get ⟨j + 1, h⟩ =
                ((a :: as).get ⟨j + 1, h1⟩, (b :: bs).get ⟨j + 1, h2⟩)
              rw [List.get_cons_succ, List.get_cons_succ, List.get_cons_succ]
              exact ih bs j _ _ _

theorem examplePred_eq (abcd : List Int) (lab : List Int) (logit : List (List ℚ)) :
    examplePred abcd lab logit =
      (lab.findIdx? (fun t => t != IGNORE_INDEX)).bind fun j =>
        (pyGet logit ((j : Int) - 1)).bind fun row =>
          (optMapM (fun a => pyGet row a) abcd).map fun vals =>
            ((argmaxIdx vals : Nat) : Int) := by
  unfold examplePred
  cases lab.findIdx? (fun t => t != IGNORE_INDEX) with
  | none => rfl
  | some j =>
      simp only [Option.some_bind]
      cases pyGet logit ((j : Int) - 1) with
      | none => rfl
      | some row =>
          simp only [Option.some_bind]
          cases optMapM (fun a => pyGet row a) abcd with
          | none => rfl
          | some vals => rfl

theorem batchPreds_eq_zip (abcd : List Int) (labList : List (List Int)) :
    ∀ (logits : List (List (List ℚ))) (i : Nat), i + logits.length ≤ labList.length →
      batchPreds abcd labList logits i =
        optMapM (fun x => examplePred abcd x.1 x.2) ((labList.drop i).zip logits) := by
  intro logits
  induction logits with
  | nil =>
      intro i _
      simp [batchPreds, optMapM]
  | cons logit rest ih =>
      intro i hle
      have hi : i < labList.length := by
        simp only [List.length_cons] at hle
        omega
      have hget : labList.get? i = some (labList.get ⟨i, hi⟩) := List.get?_eq_get hi
      rw [drop_eq_get_cons labList i hi, List.zip_cons_cons]
      simp only [batchPreds, hget, Option.some_bind, optMapM]
      rw [ih (i + 1) (by simp only [List.length_cons] at hle; omega)]

/-- C4: in `BenchEvalCallback.on_evaluate`, under the loop's operating assumptions
(each example has exactly two non-`IGNORE_INDEX` labels — the option token and the
eos token — and labels and logits have one row per example): (1) the appended
references are, example by example in order, the option-list index of the first
non-ignore label (`-1` when it is not an option token) — equivalently, the first
of each consecutive pair of non-ignore labels after flattening; (2) the appended
predictions are, example by example in order, `examplePred` of that example's
labels and logits rows, so the i-th prediction and i-th reference refer to the
same example; and (3) whenever the first non-ignore label position `j` is at least
1, the prediction is the argmax over the seven answer-option logits taken at
position exactly `j - 1`. -/
theorem claim_C4_pred_ref_alignment (abcd : List Int) (labels : List (List Int))
    (logits : List (List (List ℚ)))
    (hex : ∀ lab ∈ labels, (nonIgnore lab).length = 2)
    (hlen : labels.length = logits.length) :
    batchRefs abcd labels =
      some (labels.map fun lab => refIdxOf abcd ((nonIgnore lab).headD 0)) ∧
    batchPreds abcd labels logits 0 =
      optMapM (fun x => examplePred abcd x.1 x.2) (labels.zip logits) ∧
    (∀ ps, batchPreds abcd labels logits 0 = some ps →
      ps.length = logits.length ∧
      ∀ i (hi : i < labels.length) (hg : i < logits.length) (hp : i < ps.length),
        examplePred abcd (labels.get ⟨i, hi⟩) (logits.get ⟨i, hg⟩) =
          some (ps.get ⟨i, hp⟩)) ∧
    (∀ (lab : List Int) (logit : List (List ℚ)) (j : Nat),
      lab.findIdx? (fun t => t != IGNORE_INDEX) = some j → 1 ≤ j →
      examplePred abcd lab logit =
        (logit.get? (j - 1)).bind fun row =>
          (optMapM (fun a => pyGet row a) abcd).map fun vals =>
            ((argmaxIdx vals : Nat) : Int)) := by
  have hzip : batchPreds abcd labels logits 0 =
      optMapM (fun x => examplePred abcd x.1 x.2) (labels.zip logits) := by
    rw [batchPreds_eq_zip abcd labels logits 0 (by omega), List.drop_zero]
  refine ⟨?_, hzip, ?_, ?_⟩
  · rw [batchRefs, nonIgnore_flatten,
      viewPairsFirst_flatten (labels.map nonIgnore) ?_]
    · simp [List.map_map, Function.comp]
    · intro m hm
      obtain ⟨lab, hlab, hrfl⟩ := List.mem_map.mp hm
      rw [← hrfl]
      exact hex lab hlab
  · intro ps hps
    rw [hzip] at hps
    have hlz : (labels.zip logits).length = logits.length := by
      rw [List.length_zip, hlen, Nat.min_self]
    have hl := optMapM_length _ _ _ hps
    constructor
    · rw [hl, hlz]
    · intro i hi hg hp
      have hig : i < (labels.zip logits).length := by rw [hlz]; exact hg
      have := optMapM_get _ _ _ hps i hig hp
      rw [get_zip labels logits i hig hi hg] at this
      exact this
  · intro lab logit j hfind hj
    have hneg : ¬((j : Int) - 1 < 0) := by omega
    have htn : ((j : Int) - 1).toNat = j - 1 := by omega
    rw [examplePred_eq, hfind, Option.some_bind]
    simp only [pyGet]
    rw [if_neg hneg, htn]

/-- Witness for C4 at the concrete one-example batch. -/
theorem claim_C4_pred_ref_alignment_witness :
    batchRefs wAbcd [[-100, 12, 2]] =
      some ([[-100, 12, 2]].map fun lab => refIdxOf wAbcd ((nonIgnore lab).headD 0)) ∧
    batchPreds wAbcd [[-100, 12, 2]] [[wRow]] 0 =
      optMapM (fun x => examplePred wAbcd x.1 x.2) ([[-100, 12, 2]].zip [[wRow]]) ∧
    (∀ ps, batchPreds wAbcd [[-100, 12, 2]] [[wRow]] 0 = some ps →
      ps.length = [[wRow]].length ∧
      ∀ i (hi : i < [[-100, 12, 2]].length) (hg : i < [[wRow]].length)
        (hp : i < ps.length),
        examplePred wAbcd ([[-100, 12, 2]].get ⟨i, hi⟩) ([[wRow]].get ⟨i, hg⟩) =
          some (ps.get ⟨i, hp⟩)) ∧
    (∀ (lab : List Int) (logit : List (List ℚ)) (j : Nat),
      lab.findIdx? (fun t => t != IGNORE_INDEX) = some j → 1 ≤ j →
      examplePred wAbcd lab logit =
        (logit.get? (j - 1)).bind fun row =>
          (optMapM (fun a => pyGet row a) wAbcd).map fun vals =>
            ((argmaxIdx vals : Nat) : Int)) :=
  claim_C4_pred_ref_alignment wAbcd [[-100, 12, 2]] [[wRow]] (by decide) (by decide)

/-! ### Lemmas about the scoring loop and the results dictionary -/

theorem foldl_scoreStep_scores : ∀ (l : List (List Char × CatData)) (st : ScoreState),
    (l.foldl scoreStep st).scores =
      st.scores ++ l.map fun kv => (accuracyScore kv.2.refs kv.2.preds).getD 0 := by
  intro l
  induction l with
  | nil => intro st; simp
  | cons kv rest ih =>
      intro st
      rw [List.foldl_cons, ih]
      cases hsc : accuracyScore kv.2.refs kv.2.preds with
      | none => simp [scoreStep, hsc]
      | some s => simp [scoreStep, hsc]

theorem foldl_scoreStep_refs : ∀ (l : List (List Char × CatData)) (st : ScoreState),
    (l.foldl scoreStep st).refs = st.refs ++ (l.map fun kv => kv.2.refs).flatten := by
  intro l
  induction l with
  | nil => intro st; simp
  | cons kv rest ih =>
      intro st
      rw [List.foldl_cons, ih]
      cases hsc : accuracyScore kv.2.refs kv.2.preds with
      | none => simp [scoreStep, hsc]
      | some s => simp [scoreStep, hsc]

theorem foldl_scoreStep_preds : ∀ (l : List (List Char × CatData)) (st : ScoreState),
    (l.foldl scoreStep st).preds = st.preds ++ (l.map fun kv => kv.2.preds).flatten := by
  intro l
  induction l with
  | nil => intro st; simp
  | cons kv rest ih =>
      intro st
      rw [List.foldl_cons, ih]
      cases hsc : accuracyScore kv.2.refs kv.2.preds with
      | none => simp [scoreStep, hsc]
      | some s => simp [scoreStep, hsc]

theorem foldl_scoreStep_results : ∀ (l : List (List Char × CatData)) (st : ScoreState),
    (l.foldl scoreStep st).results =
      foldInserts st.results
        (l.map fun kv =>
          (accKeyFor kv.1, some ((accuracyScore kv.2.refs kv.2.preds).getD 0))) := by
  intro l
  induction l with
  | nil => intro st; rfl
  | cons kv rest ih =>
      intro st
      rw [List.foldl_cons, ih]
      have hstep : (scoreStep st kv).results =
          dictSet st.results (accKeyFor kv.1)
            (some ((accuracyScore kv.2.refs kv.2.preds).getD 0)) := by
        cases hsc : accuracyScore kv.2.refs kv.2.preds with
        | none => simp [scoreStep, hsc]
        | some s => simp [scoreStep, hsc]
      rw [hstep]
      rfl

theorem accKeyFor_inj : Function.Injective accKeyFor := by
  intro a b h
  exact List.append_cancel_left h

theorem accKeyFor_ne_loss (n : List Char) : accKeyFor n ≠ lossKeyL := by
  intro h
  have hlen := congrArg List.length h
  have h1 : accKeyBase.length = 20 := by decide
  have h2 : lossKeyL.length = 15 := by decide
  rw [accKeyFor, List.length_append, h1, h2] at hlen
  omega

theorem avg_ne_accKeyFor (n : List Char) : avgKeyL ≠ accKeyFor n := by
  intro h
  have htake : avgKeyL.take 20 = accKeyBase := by
    rw [h, accKeyFor]
    have h1 : accKeyBase.length = 20 := by decide
    rw [← h1, List.take_left]
  revert htake
  decide

theorem total_ne_accKeyFor (n : List Char) : totalKeyL ≠ accKeyFor n := by
  intro h
  have htake : totalKeyL.take 20 = accKeyBase := by
    rw [h, accKeyFor]
    have h1 : accKeyBase.length = 20 := by decide
    rw [← h1, List.take_left]
  revert htake
  decide

theorem computeResults_lookup_loss (bl : ℚ) (combined : List (List Char × CatData)) :
    dictLookup lossKeyL (computeResults bl combined) = some (some bl) := by
  simp only [computeResults]
  rw [dictLookup_dictSet_ne _ _ _ _ (show totalKeyL ≠ lossKeyL by decide),
    dictLookup_dictSet_ne _ _ _ _ (show avgKeyL ≠ lossKeyL by decide),
    foldl_scoreStep_results, dictLookup_foldInserts_of_not_mem _ _ _ ?_]
  · simp [dictLookup]
  · intro hmem
    rw [List.map_map] at hmem
    obtain ⟨kv, _, hk⟩ := List.mem_map.mp hmem
    exact accKeyFor_ne_loss kv.1 hk

theorem computeResults_lookup_avg (bl : ℚ) (combined : List (List Char × CatData)) :
    dictLookup avgKeyL (computeResults bl combined) =
      some (npMean (combined.map fun kv => (accuracyScore kv.2.refs kv.2.preds).getD 0)) := by
  simp only [computeResults]
  rw [dictLookup_dictSet_ne _ _ _ _ (show totalKeyL ≠ avgKeyL by decide),
    dictLookup_dictSet_self, foldl_scoreStep_scores]
  simp

theorem computeResults_lookup_total (bl : ℚ) (combined : List (List Char × CatData)) :
    dictLookup totalKeyL (computeResults bl combined) =
      some (accuracyScore ((combined.map fun kv => kv.2.refs).flatten)
        ((combined.map fun kv => kv.2.preds).flatten)) := by
  simp only [computeResults]
  rw [dictLookup_dictSet_self, foldl_scoreStep_refs, foldl_scoreStep_preds]
  simp

theorem computeResults_lookup_cat (bl : ℚ) (combined : List (List Char × CatData))
    (hnd : (combined.map Prod.fst).Nodup) (kv : List Char × CatData)
    (hmem : kv ∈ combined) :
    dictLookup (accKeyFor kv.1) (computeResults bl combined) =
      some (some ((accuracyScore kv.2.refs kv.2.preds).getD 0)) := by
  simp only [computeResults]
  rw [dictLookup_dictSet_ne _ _ _ _ (total_ne_accKeyFor kv.1),
    dictLookup_dictSet_ne _ _ _ _ (avg_ne_accKeyFor kv.1),
    foldl_scoreStep_results]
  apply dictLookup_foldInserts_of_mem
  · have h2 : ((combined.map fun kv =>
        (accKeyFor kv.1, some ((accuracyScore kv.2.refs kv.2.preds).getD 0))).map
          Prod.fst) = (combined.map Prod.fst).map accKeyFor := by
      rw [List.map_map, List.map_map]
      rfl
    rw [h2]
    exact hnd.map accKeyFor_inj
  · exact List.mem_map_of_mem _ hmem

theorem computeResults_keys_nodup (bl : ℚ) (combined : List (List Char × CatData)) :
    ((computeResults bl combined).map Prod.fst).Nodup := by
  simp only [computeResults]
  apply nodup_keys_dictSet
  apply nodup_keys_dictSet
  rw [foldl_scoreStep_results]
  apply nodup_keys_foldInserts
  simp

/-! ### Lemmas about the per-rank loss accumulation -/

theorem runBatches_loss (abcd : List Int) :
    ∀ (bs : List Batch) (acc out : StepAcc), runBatches abcd bs acc = some out →
      out.loss = acc.loss + (bs.map Batch.loss).sum := by
  intro bs
  induction bs with
  | nil =>
      intro acc out h
      have h2 : some acc = some out := h
      cases h2
      simp
  | cons b rest ih =>
      intro acc out h
      simp only [runBatches] at h
      cases hps : batchPreds abcd b.labels b.logits 0 with
      | none => rw [hps] at h; cases h
      | some ps =>
          rw [hps] at h
          cases hrs : batchRefs abcd b.labels with
          | none => rw [hrs] at h; cases h
          | some rs =>
              rw [hrs] at h
              simp only [Option.some_bind] at h
              rw [ih _ out h]
              simp [add_assoc]

theorem optMapM_runRank_loss (abcd : List Int) :
    ∀ (ranks : List RankInput) (accs : List StepAcc),
      optMapM (runRank abcd) ranks = some accs →
      (accs.map StepAcc.loss).sum =
        (ranks.map fun r => (r.batches.map Batch.loss).sum).sum := by
  intro ranks
  induction ranks with
  | nil =>
      intro accs h
      have h2 : some ([] : List StepAcc) = some accs := h
      cases h2
      simp
  | cons r rest ih =>
      intro accs h
      simp only [optMapM] at h
      cases hr : runRank abcd r with
      | none => rw [hr] at h; cases h
      | some acc =>
          rw [hr] at h
          cases hrec : optMapM (runRank abcd) rest with
          | none => rw [hrec] at h; cases h
          | some accs2 =>
              rw [hrec] at h
              have h2 : some (acc :: accs2) = some accs := h
              cases h2
              have hl := runBatches_loss abcd r.batches ⟨[], [], 0⟩ acc hr
              simp only [List.map_cons, List.sum_cons, ih accs2 hrec, hl]
              simp

/-! ### Claims C2, C3, C1 -/

/-- C2: the aggregated bench loss stored under the results key `eval_bench_loss`
equals the sum over all ranks of each rank's accumulated per-batch loss, divided
by the sum over all ranks of each rank's number of batches — a batch-count
weighted average of the per-batch losses, not an unweighted mean of per-rank
averages. -/
theorem claim_C2_bench_loss (abcd : List Int) (ranks : List RankInput)
    (results : List (List Char × Option ℚ))
    (h : onEvaluateMain abcd ranks = some results) :
    dictLookup lossKeyL results =
      some (some ((ranks.map fun r => (r.batches.map Batch.loss).sum).sum /
        (((ranks.map fun r => r.batches.length).sum : Nat) : ℚ))) := by
  simp only [onEvaluateMain] at h
  cases haccs : optMapM (runRank abcd) ranks with
  | none => rw [haccs] at h; cases h
  | some accs =>
      rw [haccs] at h
      have h2 : some (computeResults
          ((accs.map StepAcc.loss).sum /
            (((ranks.map fun r => r.batches.length).sum : Nat) : ℚ))
          (mergeCats ((ranks.zip accs).map fun ra =>
            localBenchNames ra.1.names ra.2.preds ra.2.refs))) = some results := h
      cases h2
      rw [computeResults_lookup_loss, optMapM_runRank_loss abcd ranks accs haccs]

theorem wBatchPreds_eval : batchPreds wAbcd [[-100, 12, 2]] [[wRow]] 0 = some [2] := by
  decide

theorem wBatchRefs_eval : batchRefs wAbcd [[-100, 12, 2]] = some [2] := by decide

theorem wRunRank_eval : runRank wAbcd wRank = some ⟨[2], [2], 2⟩ := by
  show runBatches wAbcd [wBatch] ⟨[], [], 0⟩ = some ⟨[2], [2], 2⟩
  simp only [runBatches, wBatch, wBatchPreds_eval, wBatchRefs_eval, Option.some_bind]
  norm_num

theorem wAccs_eval : optMapM (runRank wAbcd) [wRank] = some [(⟨[2], [2], 2⟩ : StepAcc)] := by
  simp only [optMapM, wRunRank_eval, Option.some_bind]
  rfl

theorem wAccScore_eval : accuracyScore [2] [2] = some 1 := by
  norm_num [accuracyScore, List.zip_cons_cons, List.filter]

theorem wCompute_eval : computeResults 2 [(['m'], ⟨[2], [2]⟩)] = wResults := by
  have hstep : scoreStep ⟨[], [], [], [(lossKeyL, some 2)]⟩ (['m'], ⟨[2], [2]⟩) =
      ⟨[1], [2], [2], [(lossKeyL, some 2), (accKeyFor ['m'], some 1)]⟩ := by
    simp only [scoreStep, wAccScore_eval]
    have hd : dictSet [(lossKeyL, some (2 : ℚ))] (accKeyFor ['m']) (some 1) =
        [(lossKeyL, some 2), (accKeyFor ['m'], some 1)] := by decide
    simp [hd]
  have hmean : npMean [1] = some 1 := by norm_num [npMean]
  simp only [computeResults, List.foldl_cons, List.foldl_nil, hstep, hmean,
    wAccScore_eval]
  decide

theorem wMain_eval : onEvaluateMain wAbcd [wRank] = some wResults := by
  simp only [onEvaluateMain, wAccs_eval, Option.map_some']
  have hbl : ([(⟨[2], [2], 2⟩ : StepAcc)].map StepAcc.loss).sum /
      ((([wRank].map fun r => r.batches.length).sum : Nat) : ℚ) = 2 := by
    norm_num [wRank, wBatch]
  have hloc : ([wRank].zip [(⟨[2], [2], 2⟩ : StepAcc)]).map (fun ra =>
      localBenchNames ra.1.names ra.2.preds ra.2.refs) =
      [localBenchNames [['m']] [2] [2]] := by
    simp [wRank]
  rw [hbl, hloc]
  have hmerge : mergeCats [localBenchNames [['m']] [2] [2]] = [(['m'], ⟨[2], [2]⟩)] := by
    decide
  rw [hmerge, wCompute_eval]

/-- Witness for C2 on the concrete fixture: one rank, one batch with loss 2. -/
theorem claim_C2_bench_loss_witness :
    dictLookup lossKeyL wResults =
      some (some (([wRank].map fun r => (r.batches.map Batch.loss).sum).sum /
        ((([wRank].map fun r => r.batches.length).sum : Nat) : ℚ))) :=
  claim_C2_bench_loss wAbcd [wRank] wResults wMain_eval

/-- C3: after merging the per-rank results by category name,
`eval_bench_average_accuracy` is the unweighted (macro) mean of the per-category
accuracy scores, where a category whose accuracy computation yields `NaN`
(modelled as `none`, arising on empty inputs) contributes `0.0` both to its own
`eval_bench_accuracy_{name}` entry and to the macro mean; and
`eval_bench_total_accuracy` is the (micro) accuracy computed over the
concatenation of all categories' references and predictions.  The hypotheses say
the merged dictionary has distinct keys (true of any Python dictionary) and is
nonempty (otherwise `np.mean` of an empty list is `NaN`). -/
theorem claim_C3_accuracy_aggregation (benchLoss : ℚ)
    (combined : List (List Char × CatData))
    (hnd : (combined.map Prod.fst).Nodup) (hne : combined ≠ []) :
    dictLookup avgKeyL (computeResults benchLoss combined) =
      some (some
        ((combined.map fun kv => (accuracyScore kv.2.refs kv.2.preds).getD 0).sum /
          ((combined.length : Nat) : ℚ))) ∧
    (∀ kv ∈ combined,
      dictLookup (accKeyFor kv.1) (computeResults benchLoss combined) =
        some (some ((accuracyScore kv.2.refs kv.2.preds).getD 0))) ∧
    dictLookup totalKeyL (computeResults benchLoss combined) =
      some (accuracyScore ((combined.map fun kv => kv.2.refs).flatten)
        ((combined.map fun kv => kv.2.preds).flatten)) := by
  refine ⟨?_, ?_, ?_⟩
  · rw [computeResults_lookup_avg]
    simp only [npMean, List.length_map]
    rw [if_neg (fun hz => hne (List.length_eq_zero.mp hz))]
  · intro kv hkv
    exact computeResults_lookup_cat benchLoss combined hnd kv hkv
  · exact computeResults_lookup_total benchLoss combined

/-- Witness for C3 on the concrete merged dictionary: the `NaN` category
contributes `0.0` and the macro mean is `1/2`. -/
theorem claim_C3_accuracy_aggregation_witness :
    dictLookup avgKeyL (computeResults 7 wCombined) =
      some (some
        ((wCombined.map fun kv => (accuracyScore kv.2.refs kv.2.preds).getD 0).sum /
          ((wCombined.length : Nat) : ℚ))) ∧
    (∀ kv ∈ wCombined,
      dictLookup (accKeyFor kv.1) (computeResults 7 wCombined) =
        some (some ((accuracyScore kv.2.refs kv.2.preds).getD 0))) ∧
    dictLookup totalKeyL (computeResults 7 wCombined) =
      some (accuracyScore ((wCombined.map fun kv => kv.2.refs).flatten)
        ((wCombined.map fun kv => kv.2.preds).flatten)) :=
  claim_C3_accuracy_aggregation 7 wCombined (by decide) (by decide)

/-- C1: in `BenchEvalCallback.on_evaluate`, the results dictionary computed on the
main rank — bench loss, per-category accuracies, average accuracy and total
accuracy — is broadcast to all ranks, and every key/value of it is merged into the
metrics dictionary on every rank, so that afterwards every rank's metrics
contains exactly the bench entries the main rank computed. -/
theorem claim_C1_broadcast_merge (abcd : List Int) (ranks : List RankInput)
    (metricsPerRank : List (List (List Char × Option ℚ)))
    (results : List (List Char × Option ℚ))
    (h : onEvaluateMain abcd ranks = some results) :
    onEvaluateAllRanks abcd ranks metricsPerRank =
      some (metricsPerRank.map fun m => foldInserts m results) ∧
    ∀ m ∈ metricsPerRank, ∀ k v, (k, v) ∈ results →
      dictLookup k (foldInserts m results) = some v := by
  have hnodup : (results.map Prod.fst).Nodup := by
    simp only [onEvaluateMain] at h
    cases haccs : optMapM (runRank abcd) ranks with
    | none => rw [haccs] at h; cases h
    | some accs =>
        rw [haccs] at h
        have h2 : some (computeResults
            ((accs.map StepAcc.loss).sum /
              (((ranks.map fun r => r.batches.length).sum : Nat) : ℚ))
            (mergeCats ((ranks.zip accs).map fun ra =>
              localBenchNames ra.1.names ra.2.preds ra.2.refs))) = some results := h
        cases h2
        exact computeResults_keys_nodup _ _
  constructor
  · simp [onEvaluateAllRanks, h]
  · intro m _ k v hkv
    exact dictLookup_foldInserts_of_mem m results k v hnodup hkv

/-- Witness for C1 on the concrete fixture, with two ranks' metrics dictionaries
(one empty, one already holding an unrelated key). -/
theorem claim_C1_broadcast_merge_witness :
    onEvaluateAllRanks wAbcd [wRank] [[], [(['x'], some 5)]] =
      some ([[], [(['x'], some 5)]].map fun m => foldInserts m wResults) ∧
    ∀ m ∈ [[], [(['x'], some 5)]], ∀ k v, (k, v) ∈ wResults →
      dictLookup k (foldInserts m wResults) = some v :=
  claim_C1_broadcast_merge wAbcd [wRank] [[], [(['x'], some 5)]] wResults wMain_eval

end Callbacks
